import Mathlib

/-!
Verification of the qualitative-coding replication pipeline
(`paper_replicate.py` and `table_convert.py`).

The Python sources are shallowly embedded: strings are `List Char` /
`String`, pandas cells are an explicit `Cell` type with a `na` (NaN)
constructor, Python floats are modelled exactly as rationals, raised
exceptions are `Except` errors, and Python `None` is `Option.none`.
Each definition mirrors one function of the source, keeping its name
where Lean allows.
-/

namespace QC

/-! ## Character classes (ASCII model of Python `str` predicates) -/

/-- Whitespace characters matched by Python's `str.strip` and the regex
class `\s` (ASCII fragment): space, tab, newline, carriage return,
vertical tab, form feed. -/
def isPyWS (c : Char) : Bool :=
  c.toNat = 32 || c.toNat = 9 || c.toNat = 10 || c.toNat = 13 || c.toNat = 11 || c.toNat = 12

/-- Characters kept by the final filter of `canonical`: the regex class
`[a-z0-9 ]`. -/
def isCanonChar (c : Char) : Bool :=
  (97 ≤ c.toNat && c.toNat ≤ 122) || (48 ≤ c.toNat && c.toNat ≤ 57) || c.toNat = 32

/-- Python `str.lower` on one character (ASCII fragment): map `A`-`Z` to
`a`-`z`, leave everything else unchanged. -/
def pyLowerChar (c : Char) : Char :=
  if 65 ≤ c.toNat && c.toNat ≤ 90 then Char.ofNat (c.toNat + 32) else c

/-! ## The canonicalizer (`canonical`, paper_replicate.py lines 50-62) -/

/-- Python `str.strip`: drop leading and trailing whitespace. -/
def stripWS (l : List Char) : List Char :=
  ((l.dropWhile isPyWS).reverse.dropWhile isPyWS).reverse

/-- Python `str.lower` (ASCII fragment). -/
def lowerAll (l : List Char) : List Char := l.map pyLowerChar

/-- The step `s.replace("&", " and ")`. -/
def replaceAmp : List Char → List Char
  | [] => []
  | c :: rest => (if c = '&' then [' ', 'a', 'n', 'd', ' '] else [c]) ++ replaceAmp rest

/-- The step `s.replace("-", " ")`. -/
def replaceHyph (l : List Char) : List Char :=
  l.map fun c => if c = '-' then ' ' else c

/-- The step `re.sub(r"\s+", " ", s)`: every maximal run of whitespace
becomes a single space. -/
def collapseWS : List Char → List Char
  | [] => []
  | [c] => if isPyWS c then [' '] else [c]
  | a :: b :: rest =>
    if isPyWS a then
      if isPyWS b then collapseWS (b :: rest)
      else ' ' :: collapseWS (b :: rest)
    else a :: collapseWS (b :: rest)

/-- The body of `canonical` on character lists, mirroring the source
order exactly: strip, lower, `&`→`" and "`, `-`→`" "`, collapse
whitespace, remove characters outside `[a-z0-9 ]`, strip. -/
def canonicalL (l : List Char) : List Char :=
  stripWS (List.filter isCanonChar
    (collapseWS (replaceHyph (replaceAmp (lowerAll (stripWS l))))))

/-- The helper `canonical(s)` of paper_replicate.py for string input. -/
def canonical (s : String) : String := ⟨canonicalL s.data⟩

/-- The helper `canonical(s)` including its `None` guard: `None` yields
the empty string. -/
def canonicalOpt : Option String → String
  | none => ""
  | some s => canonical s

/-- A list of characters with no two adjacent whitespace characters
(the shape `re.sub(r"\s+", " ", ·)` guarantees). -/
def noDoubleWS : List Char → Bool
  | a :: b :: rest => (!(isPyWS a && isPyWS b)) && noDoubleWS (b :: rest)
  | _ => true

/-! ## Python float parsing and rounding -/

/-- ASCII digit test. -/
def isDigitCh (c : Char) : Bool := 48 ≤ c.toNat && c.toNat ≤ 57

/-- Value of a digit run. -/
def digitsVal (l : List Char) : Nat := l.foldl (fun a c => a * 10 + (c.toNat - 48)) 0

/-- Optional sign of a Python numeric literal. -/
def takeSign : List Char → Int × List Char
  | '+' :: r => (1, r)
  | '-' :: r => (-1, r)
  | l => (1, l)

/-- Optional exponent suffix applied to a mantissa; fails on trailing
garbage. -/
def applyExp (m : Rat) : List Char → Option Rat
  | [] => some m
  | e :: rest =>
    if e = 'e' || e = 'E' then
      let (es, r) := takeSign rest
      let ed := r.takeWhile isDigitCh
      let r2 := r.dropWhile isDigitCh
      if ed.isEmpty || !r2.isEmpty then none
      else some (if es = 1 then m * 10 ^ digitsVal ed else m / 10 ^ digitsVal ed)
    else none

/-- Python `float(s)` restricted to finite decimal literals: whitespace is
stripped, then sign, digits with optional fraction, optional exponent.
Non-finite inputs (`inf`, `nan`) and unparseable strings both yield
`none`, which is faithful to `_normalize_id_value`: a non-finite float
falls through to the same string fallback as a raised `ValueError`. -/
def parseFloat (s : String) : Option Rat :=
  let t := stripWS s.data
  let (sgn, l1) := takeSign t
  let ip := l1.takeWhile isDigitCh
  let r1 := l1.dropWhile isDigitCh
  match r1 with
  | '.' :: r2 =>
    let fp := r2.takeWhile isDigitCh
    let r3 := r2.dropWhile isDigitCh
    if ip.isEmpty && fp.isEmpty then none
    else
      (applyExp ((digitsVal ip : Rat) + (digitsVal fp : Rat) / (10 : Rat) ^ fp.length)
        r3).map (fun m => (sgn : Rat) * m)
  | _ =>
    if ip.isEmpty then none
    else (applyExp (digitsVal ip : Rat) r1).map (fun m => (sgn : Rat) * m)

/-- Python `round` on an exact rational: round half to even. -/
def pyRound (q : Rat) : Int :=
  let fl := q.floor
  let fr := q - (fl : Rat)
  if fr < 1 / 2 then fl
  else if 1 / 2 < fr then fl + 1
  else if fl % 2 = 0 then fl else fl + 1

/-! ## The identifier normalizer (`_normalize_id_value`, lines 83-109) -/

/-- A pandas cell value as seen by `_normalize_id_value`: missing, an
integer, or a string.  (Float-typed identifier cells are modelled through
their exact values via `intV`/`strV`; a float's `repr` never matters for
the claims below.) -/
inductive PyVal
  | na
  | intV (n : Int)
  | strV (s : String)
deriving DecidableEq

/-- Python `str(v)` for the modelled values. -/
def pyStr : PyVal → String
  | .na => "nan"
  | .intV n => toString n
  | .strV s => s

/-- Python `float(v)` for the modelled values (finite results only). -/
def pyFloatOf : PyVal → Option Rat
  | .na => none
  | .intV n => some (n : Rat)
  | .strV s => parseFloat s

/-- Fullmatch of `\d+(\.0+)?`. -/
def matchIntOptZeros (l : List Char) : Bool :=
  let ds := l.takeWhile isDigitCh
  let r := l.dropWhile isDigitCh
  !ds.isEmpty &&
    (r.isEmpty ||
      (match r with
       | '.' :: zs => !zs.isEmpty && zs.all (fun c => c = '0')
       | _ => false))

/-- Fullmatch of `(\d+)\.0+`, returning group 1. -/
def matchIntDotZeros (l : List Char) : Option (List Char) :=
  let ds := l.takeWhile isDigitCh
  let r := l.dropWhile isDigitCh
  match r with
  | '.' :: zs =>
    if !ds.isEmpty && !zs.isEmpty && zs.all (fun c => c = '0') then some ds else none
  | _ => none

/-- The tolerance `ID_INT_TOL = 1e-9`. -/
def ID_INT_TOL : Rat := 1 / 1000000000

/-- `_normalize_id_value` (paper_replicate.py lines 83-109): the canonical
string ID used for merging; missing stays missing. -/
def normalizeIdValue (v : PyVal) : Option String :=
  match v with
  | .na => none
  | _ =>
    match pyFloatOf v with
    | some f =>
      let r := pyRound f
      if abs (f - (r : Rat)) < ID_INT_TOL then some (toString r)
      else
        let s := stripWS (pyStr v).data
        if matchIntOptZeros s then some ⟨s.takeWhile (fun c => c ≠ '.')⟩
        else some ⟨s⟩
    | none =>
      let s := stripWS (pyStr v).data
      match matchIntDotZeros s with
      | some ds => some ⟨ds⟩
      | none => some ⟨s⟩

/-! ## difflib: SequenceMatcher ratio and get_close_matches -/

/-- Positions of `c` in `b` (difflib's `b2j` row), ascending. -/
def b2j (b : List Char) (c : Char) : List Nat :=
  (List.range b.length).filter (fun j => b.getD j ' ' = c)

/-- One row of `find_longest_match`'s dynamic programming: fold the
positions of `a[i]` in `b`, extending diagonal runs recorded in `j2len`.
The accumulator is (new j2len, best block (i, j, size)). -/
def flmRow (j2len : List (Nat × Nat)) (i : Nat) (js : List Nat)
    (best : Nat × Nat × Nat) : List (Nat × Nat) × (Nat × Nat × Nat) :=
  js.foldl
    (fun acc j =>
      let k := (if j = 0 then 0 else (j2len.lookup (j - 1)).getD 0) + 1
      let keep := acc.2
      ((j, k) :: acc.1, if k > keep.2.2 then (i + 1 - k, j + 1 - k, k) else keep))
    ([], best)

/-- The scan phase of `find_longest_match` over the window
`a[alo:ahi]` × `b[blo:bhi]`. -/
def flmScan (a b : List Char) (alo ahi blo bhi : Nat) : Nat × Nat × Nat :=
  ((List.range' alo (ahi - alo)).foldl
    (fun (acc : List (Nat × Nat) × (Nat × Nat × Nat)) i =>
      let js := (b2j b (a.getD i ' ')).filter (fun j => blo ≤ j && j < bhi)
      flmRow acc.1 i js acc.2)
    ([], (alo, blo, 0))).2

/-- The left extension loop of `find_longest_match` (no junk characters:
inputs are short header names, far below the autojunk threshold). -/
def extendLeft (a b : List Char) (alo blo : Nat) : Nat → Nat × Nat × Nat → Nat × Nat × Nat
  | 0, st => st
  | fuel + 1, (i, j, sz) =>
    if alo < i && blo < j && (a.getD (i - 1) ' ' = b.getD (j - 1) ' ' : Bool)
    then extendLeft a b alo blo fuel (i - 1, j - 1, sz + 1)
    else (i, j, sz)

/-- The right extension loop of `find_longest_match`. -/
def extendRight (a b : List Char) (ahi bhi : Nat) : Nat → Nat × Nat × Nat → Nat × Nat × Nat
  | 0, st => st
  | fuel + 1, (i, j, sz) =>
    if i + sz < ahi && j + sz < bhi && (a.getD (i + sz) ' ' = b.getD (j + sz) ' ' : Bool)
    then extendRight a b ahi bhi fuel (i, j, sz + 1)
    else (i, j, sz)

/-- difflib `SequenceMatcher.find_longest_match` on a window. -/
def findLongestMatch (a b : List Char) (alo ahi blo bhi : Nat) : Nat × Nat × Nat :=
  extendRight a b ahi bhi (ahi + bhi)
    (extendLeft a b alo blo (ahi + bhi) (flmScan a b alo ahi blo bhi))

/-- Total size of all matching blocks (the `matches` count of
`get_matching_blocks`), by the standard recursive decomposition around the
longest match; the fuel argument dominates the recursion depth. -/
def matchTotal (a b : List Char) : Nat → Nat → Nat → Nat → Nat → Nat
  | 0, _, _, _, _ => 0
  | fuel + 1, alo, ahi, blo, bhi =>
    let lm := findLongestMatch a b alo ahi blo bhi
    let i := lm.1
    let j := lm.2.1
    let sz := lm.2.2
    if sz = 0 then 0
    else matchTotal a b fuel alo i blo j + sz + matchTotal a b fuel (i + sz) ahi (j + sz) bhi

/-- difflib `SequenceMatcher.ratio()`: `2*M/T` where `M` is the total
matched size and `T` the total length (1.0 for two empty sequences). -/
def similarityScore (a b : List Char) : Rat :=
  if a.length + b.length = 0 then 1
  else 2 * (matchTotal a b (a.length + b.length + 1) 0 a.length 0 b.length : Rat)
        / ((a.length : Rat) + (b.length : Rat))

/-- difflib `get_close_matches(word, possibilities, n=1, cutoff)`: among
candidates whose ratio reaches the cutoff, the one maximizing the pair
(ratio, candidate) — heapq's tuple order — or `none`.  The `quick_ratio`
pre-filters of the source are upper bounds of `ratio` and cannot change
the result. -/
def closeMatchStep (word : String) (cutoff : Rat) (best : Option (Rat × String))
    (x : String) : Option (Rat × String) :=
  let r := similarityScore x.data word.data
  if cutoff ≤ r then
    match best with
    | none => some (r, x)
    | some q => if r > q.1 ∨ (r = q.1 ∧ q.2 < x) then some (r, x) else some q
  else best

def getCloseMatch1 (word : String) (cands : List String) (cutoff : Rat) : Option String :=
  (cands.foldl (closeMatchStep word cutoff) none).map (·.2)

/-! ## pandas tables and the column coercer (`coerce_raw_columns`, lines 115-155) -/

/-- Column dtype as far as the coercer cares: object (strings) or numeric. -/
inductive Dtype
  | objectD
  | numericD
deriving DecidableEq

/-- A pandas cell. -/
inductive Cell
  | na
  | str (s : String)
  | num (q : Rat)
deriving DecidableEq

/-- A named, typed column of a DataFrame. -/
structure PdCol where
  name : String
  dtype : Dtype
  values : List Cell
deriving DecidableEq

/-- The column-name list of a frame. -/
def colNames (df : List PdCol) : List String := df.map (·.name)

/-- `df.rename(columns=\x7bold: more\x7d)`: every column named `old` gets the
new name. -/
def renameCol (df : List PdCol) (old more : String) : List PdCol :=
  df.map fun c => if c.name = old then { c with name := more } else c

/-- Python `str(x)` for a cell as used by `astype(str)` inside `avg_len`
(numeric rendering approximates float repr; it is never load-bearing). -/
def cellStr : Cell → String
  | .na => "nan"
  | .str s => s
  | .num q => if q.den = 1 then toString q.num ++ ".0" else toString q

/-- The inner helper `avg_len`: mean string length of the non-missing
values; `none` models the NaN of `mean()` over an empty selection. -/
def avgLen (vals : List Cell) : Option Rat :=
  let ls := vals.filterMap fun c =>
    match c with
    | Cell.na => none
    | c => some (((cellStr c).length : Nat) : Rat)
  if ls.length = 0 then none else some (ls.sum / (ls.length : Rat))

/-- Python `>` on possibly-NaN keys: every comparison with NaN is false. -/
def optRatGt : Option Rat → Option Rat → Bool
  | some x, some y => x > y
  | _, _ => false

/-- CPython `max(items, key=f)`: keep the first item, replace only on a
strictly greater key. -/
def pyMaxBy (f : PdCol → Option Rat) (first : PdCol) (rest : List PdCol) : PdCol :=
  rest.foldl (fun best c => if optRatGt (f c) (f best) then c else best) first

/-- The special two-column branch of `coerce_raw_columns`: exactly two
columns, an id column supplied (`is not None` — even an empty name), and
the text column absent: assume the order is (identifier, text). -/
def coerceTwoCol (df : List PdCol) (idCol : Option String) (textCol : String) :
    Option (List PdCol) :=
  match idCol with
  | none => none
  | some i =>
    match df with
    | [c1, c2] =>
      if textCol ∈ [c1.name, c2.name] then none
      else some [{ c1 with name := i }, { c2 with name := textCol }]
    | _ => none

/-- The list comprehension `[c for c in cols if np.issubdtype(df[c].dtype,
np.number)]` of the id step: `cols` holds the ORIGINAL names while `df`
may have been renamed, so looking up a renamed-away name raises KeyError. -/
def numColsOf (cols0 : List String) (df : List PdCol) : Except String (List String) :=
  match cols0 with
  | [] => .ok []
  | c :: rest =>
    match df.find? (fun col => col.name = c) with
    | none => .error "KeyError"
    | some col =>
      match numColsOf rest df with
      | .error e => .error e
      | .ok ns => .ok (if col.dtype = Dtype.numericD then c :: ns else ns)

/-- The "Ensure TEXT present" step of `coerce_raw_columns` (lines
127-139): rename the object column of greatest average string length —
or, failing object columns, `cols[-1]` ("IndexError" on an empty frame). -/
def coerceTextStep (df : List PdCol) (textCol : String) : Except String (List PdCol) :=
  if textCol ∈ colNames df then .ok df
  else
    match df.filter (fun c => c.dtype = Dtype.objectD) with
    | b :: bs => .ok (renameCol df (pyMaxBy (fun c => avgLen c.values) b bs).name textCol)
    | [] =>
      match df.getLast? with
      | some lastC => .ok (renameCol df lastC.name textCol)
      | none => .error "IndexError"

/-- The construct-column fuzzy adoption step (lines 141-145): candidates
come from `cols`, the ORIGINAL column list. -/
def coerceConstructStep (df1 : List PdCol) (cols0 : List String)
    (constructCol : String) : List PdCol :=
  if constructCol ∈ colNames df1 then df1
  else
    match getCloseMatch1 constructCol cols0 (4 / 5) with
    | some m => renameCol df1 m constructCol
    | none => df1

/-- The "Ensure ID if requested" step (lines 147-153): numeric candidates
are scanned over the ORIGINAL names (possible KeyError), else the first
original column. -/
def coerceIdStep (df2 : List PdCol) (cols0 : List String) (idCol : Option String) :
    Except String (List PdCol) :=
  match idCol with
  | some ic =>
    if ic ≠ "" ∧ ic ∉ colNames df2 then
      match numColsOf cols0 df2 with
      | .error e => .error e
      | .ok (n :: _) => .ok (renameCol df2 n ic)
      | .ok [] =>
        match cols0 with
        | c0 :: _ => .ok (renameCol df2 c0 ic)
        | [] => .error "IndexError"
    else .ok df2
  | none => .ok df2

/-- `coerce_raw_columns` (paper_replicate.py lines 115-155).  Errors model
raised exceptions: "IndexError" for `cols[-1]` on an empty frame,
"KeyError" for `df[c]` on a name renamed away before the numeric scan. -/
def coerceRawColumns (df : List PdCol) (idCol : Option String)
    (textCol constructCol : String) : Except String (List PdCol) :=
  let cols0 := colNames df
  match coerceTwoCol df idCol textCol with
  | some out => .ok out
  | none =>
    match coerceTextStep df textCol with
    | .error e => .error e
    | .ok df1 => coerceIdStep (coerceConstructStep df1 cols0 constructCol) cols0 idCol

/-! ## The reshaper (`melt_coded_wide_to_long`, lines 157-188) -/

/-- The id-column choice of the reshaper: the supplied id if present
(Python truthiness: an empty name is falsy), else the well-known
"task_submit_id", else the first column; `none` models the IndexError of
`df.columns[0]` on a zero-column frame. -/
def chooseIdName (cols : List PdCol) (idCol : Option String) : Option String :=
  let fb : Option String :=
    if "task_submit_id" ∈ colNames cols then some "task_submit_id"
    else cols.head?.map (·.name)
  match idCol with
  | some c => if c ≠ "" ∧ c ∈ colNames cols then some c else fb
  | none => fb

/-- `pd.to_numeric(·, errors="coerce")` on one cell: numbers pass through,
numeric-looking strings parse, everything else becomes missing. -/
def toNumericCell : Cell → Option Rat
  | .na => none
  | .num q => some q
  | .str s => parseFloat s

/-- One long-form label row. -/
structure MeltRow where
  idVal : Cell
  constructName : String
  humanLabel : Option Rat
  constructCanon : String
deriving DecidableEq

/-- `melt_coded_wide_to_long`: wide to long, numeric coercion of labels,
canonical construct key attached per row.  The output lists, per value
column in frame order, the (id value, cell) pairs in row order — exactly
`pd.melt`'s layout. -/
def meltCodedWideToLong (cols : List PdCol) (idCol : Option String)
    (_constructColName : String) : Option (List MeltRow) :=
  match chooseIdName cols idCol with
  | none => none
  | some idName =>
    let idVals := ((cols.find? (fun c => c.name = idName)).map (·.values)).getD []
    let valueCols := cols.filter (fun c => c.name ≠ idName)
    some (valueCols.flatMap fun c =>
      (idVals.zip c.values).map fun p =>
        { idVal := p.1, constructName := c.name,
          humanLabel := toNumericCell p.2, constructCanon := canonical c.name })

/-- The spec's structural scenario: a wide coded table with an id column
`sid` and the two construct columns "If Header" and "Comment", two entity
rows each. -/
def sampleWide : List PdCol :=
  [⟨"sid", Dtype.numericD, [Cell.num 101, Cell.num 102]⟩,
   ⟨"If Header", Dtype.numericD, [Cell.num 1, Cell.num 0]⟩,
   ⟨"Comment", Dtype.numericD, [Cell.str "1", Cell.na]⟩]

/-! ## Merge planning and execution (`main`, lines 285-310) -/

/-- Merge-key selection: both sides must have the supplied identifier
column (Python truthiness: `None` or an empty name is falsy) to join on
(canonical id, canonical construct); otherwise construct-only.  The flag
models the `warnings.warn` of the fallback branch. -/
def selectMergeKeys (idCol : Option String) (rawCols codedCols : List String) :
    List String × Bool :=
  let hasRawId : Bool :=
    match idCol with
    | some c => decide (c ≠ "" ∧ c ∈ rawCols)
    | none => false
  let hasCodedId : Bool :=
    match idCol with
    | some c => decide (c ≠ "" ∧ c ∈ codedCols)
    | none => false
  if hasRawId && hasCodedId then (["_id_key", "_construct_canon"], false)
  else (["_construct_canon"], true)

/-- `pd.merge(ls, rs, on=keys, how="left")` over abstract key functions:
each left row is paired with every matching right row, or with `none` when
nothing matches; left order is preserved. -/
def pdLeftMerge {α β κ : Type} [DecidableEq κ] (keyL : α → κ) (keyR : β → κ)
    (ls : List α) (rs : List β) : List (α × Option β) :=
  ls.flatMap fun l =>
    match rs.filter (fun r => keyR r = keyL l) with
    | [] => [(l, none)]
    | m :: ms => (m :: ms).map (fun r => (l, some r))

/-- Number of right rows matching a left row's key. -/
def numMatches {α β κ : Type} [DecidableEq κ] (keyL : α → κ) (keyR : β → κ)
    (rs : List β) (l : α) : Nat :=
  (rs.filter (fun r => keyR r = keyL l)).length

/-! ## The scoring engine (`main`, lines 345-400) -/

/-- A numpy float64 scalar: a finite value or NaN. -/
inductive PyFloat
  | val (q : Rat)
  | nan
deriving DecidableEq

/-- numpy `.mean()` (callers guard non-emptiness). -/
def meanRat (l : List Rat) : Rat := l.sum / (l.length : Rat)

/-- sklearn `cohen_kappa_score` with default unweighted weights, numpy
semantics: the 0/0 of a degenerate (single-class) input is NaN, not an
exception. -/
def cohenKappa (yt yp : List Int) : PyFloat :=
  let labels := ((yt ++ yp).dedup).mergeSort (fun x y => decide (x ≤ y))
  let pairs := yt.zip yp
  let cm := fun (li lj : Int) => (((pairs.filter (fun p => p.1 = li ∧ p.2 = lj)).length : Nat) : Rat)
  let sum0 := fun (li : Int) => (labels.map (fun lj => cm lj li)).sum
  let sum1 := fun (li : Int) => (labels.map (fun lj => cm li lj)).sum
  let n : Rat := ((pairs.length : Nat) : Rat)
  let offDiag := fun (f : Int → Int → Rat) =>
    (labels.map (fun li => (labels.map (fun lj => if li = lj then 0 else f li lj)).sum)).sum
  let num := offDiag cm
  let den := offDiag (fun li lj => sum0 li * sum1 lj / n)
  if den = 0 then PyFloat.nan else PyFloat.val (1 - num / den)

/-- sklearn `precision_score(..., zero_division=0)` with positive label 1. -/
def precisionScore (yt yp : List Int) : Rat :=
  let pairs := yt.zip yp
  let tp := (pairs.filter (fun p => p.1 = 1 ∧ p.2 = 1)).length
  let pp := (pairs.filter (fun p => p.2 = 1)).length
  if pp = 0 then 0 else (tp : Rat) / (pp : Rat)

/-- sklearn `recall_score(..., zero_division=0)` with positive label 1. -/
def recallScore (yt yp : List Int) : Rat :=
  let pairs := yt.zip yp
  let tp := (pairs.filter (fun p => p.1 = 1 ∧ p.2 = 1)).length
  let ap := (pairs.filter (fun p => p.1 = 1)).length
  if ap = 0 then 0 else (tp : Rat) / (ap : Rat)

/-- One row of the per-construct metrics table (and one record of the
`*_per_construct_metrics.json` document). -/
structure ConstructRecord where
  construct : String
  freqInData : Option PyFloat
  humGptKappa : Option PyFloat
  humGptPrecision : Option PyFloat
  humGptRecall : Option PyFloat
  nEval : Nat
deriving DecidableEq

/-- The per-construct record built by `main`'s scoring loop (lines
362-400) from one group's (human label?, prediction) rows.  A group with
no labelled rows yields the all-None record.  `cohen_kappa_score` sits in
a try/except assigning None on exception — but the computation is total
(NaN, never a raise), so the guard's None branch is dead code. -/
def buildConstructRecord (name : String) (g : List (Option Int × Int)) :
    ConstructRecord :=
  let ev := g.filter (fun r => r.1.isSome)
  if ev.length = 0 then
    { construct := name, freqInData := none, humGptKappa := none,
      humGptPrecision := none, humGptRecall := none, nEval := 0 }
  else
    let yt := ev.filterMap (·.1)
    let yp := ev.map (·.2)
    { construct := name,
      freqInData := some (PyFloat.val (meanRat (yt.map (fun t => if t = 1 then 1 else 0)))),
      humGptKappa := some (cohenKappa yt yp),
      humGptPrecision := some (PyFloat.val (precisionScore yt yp)),
      humGptRecall := some (PyFloat.val (recallScore yt yp)),
      nEval := ev.length }

/-- The overall kappa of `main` (lines 345-354): reported absent when no
merged row carries a human label. -/
def overallKappa (rows : List (Option Int × Int)) : Option PyFloat :=
  let ev := rows.filter (fun r => r.1.isSome)
  if ev.length = 0 then none
  else some (cohenKappa (ev.filterMap (·.1)) (ev.map (·.2)))

/-! ## Oracle response parsing (`llm_predict_binary`, lines 219-234) -/

/-- Regex word characters (`\w`, ASCII fragment). -/
def isWordChar (c : Char) : Bool :=
  (65 ≤ c.toNat && c.toNat ≤ 90) || (97 ≤ c.toNat && c.toNat ≤ 122) ||
  (48 ≤ c.toNat && c.toNat ≤ 57) || c.toNat = 95

/-- First match of `\b([01])\b`: the leftmost 0/1 digit with no word
character on either side. -/
def findStandalone01 : Option Char → List Char → Option Char
  | _, [] => none
  | prev, c :: rest =>
    if (c = '0' || c = '1') &&
       (match prev with | none => true | some p => !isWordChar p) &&
       (match rest.head? with | none => true | some nx => !isWordChar nx)
    then some c
    else findStandalone01 (some c) rest

/-- The response parsing of `llm_predict_binary` (lines 226-234): first
`re.search(r"\b([01])\b")`, then `re.search(r"^[\s\n\r]*([01])")` (the
class is whitespace, so backtracking cannot help and the greedy skip is
exact), else a warning and the default label 0.  The model content may be
`None` (`or ""`); the Bool is the warning flag. -/
def llmParseBinary (content : Option String) : Nat × Bool :=
  let txt := (content.getD "").data
  match findStandalone01 none txt with
  | some c => (if c = '1' then 1 else 0, false)
  | none =>
    match (txt.dropWhile isPyWS).head? with
    | some c => if c = '0' || c = '1' then (if c = '1' then 1 else 0, false) else (0, true)
    | none => (0, true)

/-! ## The rendering utility (`pretty_format`, table_convert.py lines 27-46) -/

/-- pandas `.round(nd)` on a finite float (numpy half-even). -/
def pyRoundTo (nd : Nat) (q : Rat) : Rat := ((pyRound (q * 10 ^ nd) : Int) : Rat) / 10 ^ nd

/-- The `freq_in_data` transform `astype(float) * 100 → round(0) →
astype(int) → +"%"`:  `astype(int)` raises on a missing or NaN value. -/
def freqCellFormat : Option PyFloat → Except String String
  | some (PyFloat.val q) => .ok (toString (pyRound (q * 100)) ++ "%")
  | _ => .error "IntCastingNaNError"

/-- The metric-column transform `astype(float).round(2)`: missing (None)
becomes NaN and survives rounding. -/
def round2Cell : Option PyFloat → Option PyFloat
  | some (PyFloat.val q) => some (PyFloat.val (pyRoundTo 2 q))
  | _ => some PyFloat.nan

/-- A formatted row of `pretty_format`'s output (`n_eval` dropped). -/
structure PrettyRecord where
  construct : String
  freqPct : String
  humGptKappa : Option PyFloat
  humGptPrecision : Option PyFloat
  humGptRecall : Option PyFloat
deriving DecidableEq

/-- `pretty_format` on a per-construct metrics document: percentage-format
the frequency (raising on a missing value), round the other metrics to two
decimals, drop `n_eval`. -/
def prettyFormat (doc : List ConstructRecord) : Except String (List PrettyRecord) :=
  doc.mapM fun r =>
    match freqCellFormat r.freqInData with
    | .error e => .error e
    | .ok f =>
      .ok { construct := r.construct, freqPct := f,
            humGptKappa := round2Cell r.humGptKappa,
            humGptPrecision := round2Cell r.humGptPrecision,
            humGptRecall := round2Cell r.humGptRecall }

/-- A character whose presence forces a non-empty canonical key: an ASCII
letter or digit, or an ampersand (which expands to "and"). -/
def keepsCanonNonempty (c : Char) : Bool :=
  (65 ≤ c.toNat && c.toNat ≤ 90) || (97 ≤ c.toNat && c.toNat ≤ 122) ||
  (48 ≤ c.toNat && c.toNat ≤ 57) || c.toNat = 38

/-! ### Support lemmas for the canonicalizer -/

theorem dropWhile_head_false {p : Char → Bool} :
    ∀ {l : List Char} {c : Char} {t : List Char},
      List.dropWhile p l = c :: t → p c = false := by
  intro l
  induction l with
  | nil => intro c t h; simp [List.dropWhile] at h
  | cons a rest ih =>
    intro c t h
    by_cases hp : p a
    · rw [List.dropWhile_cons_of_pos hp] at h; exact ih h
    · rw [List.dropWhile_cons_of_neg hp] at h
      cases h; simpa using hp

theorem dropWhile_dropWhile (p : Char → Bool) (l : List Char) :
    (l.dropWhile p).dropWhile p = l.dropWhile p := by
  cases h : l.dropWhile p with
  | nil => rfl
  | cons c t => exact List.dropWhile_cons_of_neg (by simp [dropWhile_head_false h])

theorem mem_stripWS {c : Char} {l : List Char} (h : c ∈ stripWS l) : c ∈ l := by
  unfold stripWS at h
  rw [List.mem_reverse] at h
  have h1 := (List.dropWhile_sublist isPyWS).mem h
  rw [List.mem_reverse] at h1
  exact (List.dropWhile_sublist isPyWS).mem h1

theorem all_canonChar_canonicalL {c : Char} {l : List Char} (h : c ∈ canonicalL l) :
    isCanonChar c = true := by
  unfold canonicalL at h
  exact List.of_mem_filter (mem_stripWS h)

theorem pyLowerChar_fix {c : Char} (h : isCanonChar c = true) : pyLowerChar c = c := by
  unfold isCanonChar at h
  unfold pyLowerChar
  rw [if_neg]
  simp only [Bool.or_eq_true, Bool.and_eq_true, decide_eq_true_eq] at h ⊢
  omega

theorem canonChar_ne_amp {c : Char} (h : isCanonChar c = true) : c ≠ '&' := by
  intro hc; subst hc; simp [isCanonChar] at h

theorem canonChar_ne_hyph {c : Char} (h : isCanonChar c = true) : c ≠ '-' := by
  intro hc; subst hc; simp [isCanonChar] at h

theorem canonChar_ws_eq_space {c : Char} (h : isCanonChar c = true)
    (hw : isPyWS c = true) : c = ' ' := by
  unfold isCanonChar at h
  unfold isPyWS at hw
  simp only [Bool.or_eq_true, Bool.and_eq_true, decide_eq_true_eq] at h hw
  have : c.toNat = 32 := by omega
  have h2 : Char.ofNat c.toNat = Char.ofNat 32 := by rw [this]
  rwa [Char.ofNat_toNat] at h2

theorem lowerAll_fix {l : List Char} (h : ∀ c ∈ l, isCanonChar c = true) :
    lowerAll l = l := by
  unfold lowerAll
  rw [List.map_congr_left (fun c hc => pyLowerChar_fix (h c hc))]
  exact List.map_id l

theorem replaceAmp_fix {l : List Char} (h : ∀ c ∈ l, isCanonChar c = true) :
    replaceAmp l = l := by
  induction l with
  | nil => rfl
  | cons a t ih =>
    have ha := canonChar_ne_amp (h a (by simp))
    simp only [replaceAmp, if_neg ha, List.singleton_append, List.cons.injEq, true_and]
    exact ih (fun c hc => h c (by simp [hc]))

theorem replaceHyph_fix {l : List Char} (h : ∀ c ∈ l, isCanonChar c = true) :
    replaceHyph l = l := by
  unfold replaceHyph
  rw [List.map_congr_left (fun c hc => if_neg (canonChar_ne_hyph (h c hc)))]
  exact List.map_id l

theorem collapseWS_fix : ∀ {l : List Char}, (∀ c ∈ l, isCanonChar c = true) →
    noDoubleWS l = true → collapseWS l = l := by
  intro l
  induction l with
  | nil => intro _ _; rfl
  | cons a t ih =>
    intro hok hnd
    cases t with
    | nil =>
      by_cases hw : isPyWS a
      · have := canonChar_ws_eq_space (hok a (by simp)) hw
        subst this; simp [collapseWS]
      · simp [collapseWS, hw]
    | cons b rest =>
      have hndr : noDoubleWS (b :: rest) = true := by
        simp only [noDoubleWS, Bool.and_eq_true] at hnd
        exact hnd.2
      have hrec := ih (fun c hc => hok c (by simp [hc])) hndr
      by_cases hw : isPyWS a
      · have hnb : isPyWS b = false := by
          simp only [noDoubleWS, Bool.and_eq_true, Bool.not_eq_true',
            Bool.and_eq_false_iff] at hnd
          rcases hnd.1 with h1 | h1
          · rw [hw] at h1; exact absurd h1 (by simp)
          · exact h1
        have ha := canonChar_ws_eq_space (hok a (by simp)) hw
        subst ha
        simp only [collapseWS, if_pos hw, hnb]
        simp [hrec]
      · simp only [collapseWS, if_neg hw]
        simp [hrec]

theorem dropWhile_mem_not_ws {c : Char} {l : List Char} (p : Char → Bool)
    (hm : c ∈ l) (hc : p c = false) : c ∈ l.dropWhile p := by
  induction l with
  | nil => simp at hm
  | cons a t ih =>
    by_cases hp : p a
    · rw [List.dropWhile_cons_of_pos hp]
      rcases List.mem_cons.mp hm with h | h
      · subst h; rw [hp] at hc; exact absurd hc (by simp)
      · exact ih h
    · rw [List.dropWhile_cons_of_neg hp]; exact hm

theorem mem_stripWS_of_not_ws {c : Char} {l : List Char}
    (hm : c ∈ l) (hc : isPyWS c = false) : c ∈ stripWS l := by
  unfold stripWS
  rw [List.mem_reverse]
  apply dropWhile_mem_not_ws _ _ hc
  rw [List.mem_reverse]
  exact dropWhile_mem_not_ws _ hm hc

theorem dropWhile_stripWS (l : List Char) :
    (stripWS l).dropWhile isPyWS = stripWS l := by
  cases hs : stripWS l with
  | nil => rfl
  | cons c t =>
    rw [List.dropWhile_cons_of_neg]
    have hpre : stripWS l <+: l.dropWhile isPyWS := by
      have h1 : (l.dropWhile isPyWS).reverse.dropWhile isPyWS <:+ (l.dropWhile isPyWS).reverse :=
        List.dropWhile_suffix isPyWS
      have := List.reverse_prefix.mpr h1
      simpa [stripWS] using this
    rw [hs] at hpre
    obtain ⟨w, hw⟩ := hpre
    have hhead : l.dropWhile isPyWS = c :: (t ++ w) := by
      rw [← hw]; simp
    simp [dropWhile_head_false hhead]

theorem dropWhile_reverse_stripWS (l : List Char) :
    (stripWS l).reverse.dropWhile isPyWS = (stripWS l).reverse := by
  have hrev : (stripWS l).reverse = (l.dropWhile isPyWS).reverse.dropWhile isPyWS := by
    simp [stripWS]
  rw [hrev, dropWhile_dropWhile]

theorem stripWS_idem (l : List Char) : stripWS (stripWS l) = stripWS l := by
  have step : stripWS (stripWS l) =
      (((stripWS l).dropWhile isPyWS).reverse.dropWhile isPyWS).reverse := rfl
  rw [step, dropWhile_stripWS, dropWhile_reverse_stripWS, List.reverse_reverse]

theorem canonicalL_of_canonicalL_stripped (l : List Char) :
    stripWS (canonicalL l) = canonicalL l := by
  unfold canonicalL
  exact stripWS_idem _

/-- The central fixed-point fact: a second canonicalization changes
nothing as soon as the first pass produced no adjacent double space
(the pass can produce one: removing a punctuation character that sat
between two spaces happens after whitespace collapsing). -/
theorem canonicalL_idem_of_noDoubleWS {l : List Char}
    (h : noDoubleWS (canonicalL l) = true) :
    canonicalL (canonicalL l) = canonicalL l := by
  have hok : ∀ c ∈ canonicalL l, isCanonChar c = true :=
    fun c hc => all_canonChar_canonicalL hc
  have step : canonicalL (canonicalL l) =
      stripWS (List.filter isCanonChar
        (collapseWS (replaceHyph (replaceAmp (lowerAll (stripWS (canonicalL l))))))) := rfl
  rw [step, canonicalL_of_canonicalL_stripped, lowerAll_fix hok, replaceAmp_fix hok,
    replaceHyph_fix hok, collapseWS_fix hok h, List.filter_eq_self.mpr hok,
    canonicalL_of_canonicalL_stripped]

/-! ### Support lemmas: non-empty canonical keys -/

theorem toNat_ofNat_valid {n : Nat} (h : n < 55296) : (Char.ofNat n).toNat = n := by
  have hv : n.isValidChar := Or.inl h
  unfold Char.ofNat
  rw [dif_pos hv]
  simp [Char.ofNatAux, Char.toNat, UInt32.toNat, BitVec.toNat_ofNatLt]

/-- A lower-case letter or digit: survives the whole canonical pipeline. -/
def isLowerAlnum (c : Char) : Bool :=
  (97 ≤ c.toNat && c.toNat ≤ 122) || (48 ≤ c.toNat && c.toNat ≤ 57)

theorem keeps_not_ws {c : Char} (h : keepsCanonNonempty c = true) : isPyWS c = false := by
  unfold keepsCanonNonempty at h
  unfold isPyWS
  simp only [Bool.or_eq_true, Bool.and_eq_true, decide_eq_true_eq] at h
  simp only [Bool.or_eq_false_iff, decide_eq_false_iff_not]
  omega

theorem lowerAlnum_not_ws {c : Char} (h : isLowerAlnum c = true) : isPyWS c = false := by
  unfold isLowerAlnum at h
  unfold isPyWS
  simp only [Bool.or_eq_true, Bool.and_eq_true, decide_eq_true_eq] at h
  simp only [Bool.or_eq_false_iff, decide_eq_false_iff_not]
  omega

theorem lowerAlnum_canonChar {c : Char} (h : isLowerAlnum c = true) :
    isCanonChar c = true := by
  unfold isLowerAlnum at h
  unfold isCanonChar
  simp only [Bool.or_eq_true, Bool.and_eq_true, decide_eq_true_eq] at h ⊢
  omega

theorem lowerAlnum_ne_amp {c : Char} (h : isLowerAlnum c = true) : c ≠ '&' := by
  intro hc; subst hc; simp [isLowerAlnum] at h

theorem lowerAlnum_ne_hyph {c : Char} (h : isLowerAlnum c = true) : c ≠ '-' := by
  intro hc; subst hc; simp [isLowerAlnum] at h

/-- Lowering a canonical-forcing character gives a lower-case letter,
digit, or ampersand. -/
theorem pyLowerChar_of_keeps {c : Char} (h : keepsCanonNonempty c = true) :
    isLowerAlnum (pyLowerChar c) = true ∨ pyLowerChar c = '&' := by
  unfold keepsCanonNonempty at h
  simp only [Bool.or_eq_true, Bool.and_eq_true, decide_eq_true_eq] at h
  by_cases hu : 65 ≤ c.toNat ∧ c.toNat ≤ 90
  · left
    have : pyLowerChar c = Char.ofNat (c.toNat + 32) := by
      unfold pyLowerChar
      rw [if_pos]
      simp only [Bool.and_eq_true, decide_eq_true_eq]
      omega
    rw [this]
    unfold isLowerAlnum
    rw [toNat_ofNat_valid (by omega)]
    simp only [Bool.or_eq_true, Bool.and_eq_true, decide_eq_true_eq]
    omega
  · have hfix : pyLowerChar c = c := by
      unfold pyLowerChar
      rw [if_neg]
      simp only [Bool.and_eq_true, decide_eq_true_eq]
      omega
    rw [hfix]
    rcases h with ((h1 | h1) | h1) | h1
    · exact absurd h1 hu
    · left; unfold isLowerAlnum
      simp only [Bool.or_eq_true, Bool.and_eq_true, decide_eq_true_eq]; omega
    · left; unfold isLowerAlnum
      simp only [Bool.or_eq_true, Bool.and_eq_true, decide_eq_true_eq]; omega
    · right
      have h2 : Char.ofNat c.toNat = Char.ofNat 38 := by rw [h1]
      rwa [Char.ofNat_toNat] at h2

theorem mem_replaceAmp_of_ne {c : Char} : ∀ {l : List Char}, c ∈ l → c ≠ '&' →
    c ∈ replaceAmp l := by
  intro l
  induction l with
  | nil => intro h _; simp at h
  | cons a t ih =>
    intro hm hne
    rcases List.mem_cons.mp hm with h | h
    · subst h
      simp only [replaceAmp, if_neg hne, List.singleton_append]
      exact List.mem_cons_self _ _
    · unfold replaceAmp
      exact List.mem_append_right _ (ih h hne)

theorem amp_mem_replaceAmp : ∀ {l : List Char}, '&' ∈ l → 'a' ∈ replaceAmp l := by
  intro l
  induction l with
  | nil => intro h; simp at h
  | cons a t ih =>
    intro hm
    rcases List.mem_cons.mp hm with h | h
    · subst h
      simp [replaceAmp]
    · unfold replaceAmp
      exact List.mem_append_right _ (ih h)

theorem mem_replaceHyph_of_ne {c : Char} {l : List Char} (hm : c ∈ l) (hne : c ≠ '-') :
    c ∈ replaceHyph l := by
  unfold replaceHyph
  have : c = if c = '-' then ' ' else c := by rw [if_neg hne]
  rw [this]
  exact List.mem_map_of_mem _ hm

theorem mem_collapseWS_of_not_ws {c : Char} (hw : isPyWS c = false) :
    ∀ {l : List Char}, c ∈ l → c ∈ collapseWS l := by
  intro l
  induction l with
  | nil => intro h; simp at h
  | cons a t ih =>
    intro hm
    cases t with
    | nil =>
      have : c = a := by simpa using hm
      subst this
      simp [collapseWS, hw]
    | cons b rest =>
      rcases List.mem_cons.mp hm with h | h
      · subst h
        simp [collapseWS, hw]
      · have htail := ih h
        by_cases ha : isPyWS a
        · by_cases hb : isPyWS b
          · simpa [collapseWS, ha, hb] using htail
          · simp only [collapseWS, if_pos ha, if_neg hb]
            exact List.mem_cons_of_mem _ htail
        · simp only [collapseWS, if_neg ha]
          exact List.mem_cons_of_mem _ htail

/-- A name containing a letter, digit, or ampersand has a non-empty
canonical form. -/
theorem canonicalL_ne_nil_of_keeps {l : List Char}
    (h : l.any keepsCanonNonempty = true) : canonicalL l ≠ [] := by
  obtain ⟨c, hc, hk⟩ := List.any_eq_true.mp h
  have hc1 : c ∈ stripWS l := mem_stripWS_of_not_ws hc (keeps_not_ws hk)
  have hc2 : pyLowerChar c ∈ lowerAll (stripWS l) := List.mem_map_of_mem _ hc1
  obtain ⟨e, he, hea⟩ :
      ∃ e, e ∈ replaceAmp (lowerAll (stripWS l)) ∧ isLowerAlnum e = true := by
    rcases pyLowerChar_of_keeps hk with hla | hamp
    · exact ⟨pyLowerChar c, mem_replaceAmp_of_ne hc2 (lowerAlnum_ne_amp hla), hla⟩
    · rw [hamp] at hc2
      exact ⟨'a', amp_mem_replaceAmp hc2, by decide⟩
  have he3 : e ∈ replaceHyph (replaceAmp (lowerAll (stripWS l))) :=
    mem_replaceHyph_of_ne he (lowerAlnum_ne_hyph hea)
  have he4 : e ∈ collapseWS (replaceHyph (replaceAmp (lowerAll (stripWS l)))) :=
    mem_collapseWS_of_not_ws (lowerAlnum_not_ws hea) he3
  have he5 : e ∈ List.filter isCanonChar
      (collapseWS (replaceHyph (replaceAmp (lowerAll (stripWS l))))) :=
    List.mem_filter.mpr ⟨he4, lowerAlnum_canonChar hea⟩
  have he6 : e ∈ canonicalL l :=
    mem_stripWS_of_not_ws he5 (lowerAlnum_not_ws hea)
  intro hnil
  rw [hnil] at he6
  simp at he6

/-! ### Support lemmas: the left merge -/

theorem sum_map_one {α : Type} (l : List α) : (l.map (fun _ => (1 : Nat))).sum = l.length := by
  induction l with
  | nil => rfl
  | cons a t ih => simp [ih]; omega

theorem pdLeftMerge_row_length {α β κ : Type} [DecidableEq κ] (keyL : α → κ) (keyR : β → κ)
    (rs : List β) (l : α) :
    (match rs.filter (fun r => keyR r = keyL l) with
      | [] => [(l, (none : Option β))]
      | m :: ms => (m :: ms).map (fun r => (l, some r))).length
      = max 1 (numMatches keyL keyR rs l) := by
  unfold numMatches
  cases h : rs.filter (fun r => keyR r = keyL l) with
  | nil => simp
  | cons m ms => simp [Nat.max_eq_right (Nat.succ_le_succ (Nat.zero_le _))]

/-! ### Support lemmas: scoring -/

theorem sum_indicator_eq_countP (l : List Int) :
    (l.map (fun t => if t = 1 then (1 : Rat) else 0)).sum
      = ((l.countP (fun t => decide (t = 1)) : Nat) : Rat) := by
  induction l with
  | nil => simp
  | cons a t ih =>
    by_cases ha : a = 1
    · simp only [List.map_cons, List.sum_cons, if_pos ha, ih, List.countP_cons, ha]
      simp
      ring
    · simp [ha, ih, List.countP_cons]

theorem length_filterMap_fst (g : List (Option Int × Int)) :
    ((g.filter (fun r => r.1.isSome)).filterMap (·.1)).length
      = (g.filter (fun r => r.1.isSome)).length := by
  induction g with
  | nil => rfl
  | cons a t ih =>
    cases ha : a.1 with
    | none => simp [List.filter_cons, ha, ih]
    | some v => simp [List.filter_cons, ha, List.filterMap_cons, ih]

/-! ### Support lemmas: the reshaper -/

theorem chooseIdName_isSome {cols : List PdCol} (idCol : Option String)
    (hne : cols ≠ []) : ∃ idName, chooseIdName cols idCol = some idName := by
  obtain ⟨a, t, rfl⟩ := List.exists_cons_of_ne_nil hne
  unfold chooseIdName
  cases idCol with
  | none =>
    by_cases ht : "task_submit_id" ∈ colNames (a :: t) <;> simp [ht]
  | some c =>
    by_cases hc : c ≠ "" ∧ c ∈ colNames (a :: t) <;>
      by_cases ht : "task_submit_id" ∈ colNames (a :: t) <;> simp [hc, ht]

theorem chooseIdName_mem {cols : List PdCol} {idCol : Option String} {idName : String}
    (h : chooseIdName cols idCol = some idName) : idName ∈ colNames cols := by
  have hfb :
      (if "task_submit_id" ∈ colNames cols then some "task_submit_id"
        else cols.head?.map (·.name)) = some idName → idName ∈ colNames cols := by
    intro hh
    by_cases ht : "task_submit_id" ∈ colNames cols
    · rw [if_pos ht] at hh
      cases hh; exact ht
    · rw [if_neg ht] at hh
      cases cols with
      | nil => simp at hh
      | cons a t =>
        simp only [List.head?_cons, Option.map_some'] at hh
        cases hh
        exact List.mem_map_of_mem _ (List.mem_cons_self _ _)
  cases idCol with
  | none =>
    apply hfb
    simpa [chooseIdName] using h
  | some c =>
    rw [show chooseIdName cols (some c)
        = (if c ≠ "" ∧ c ∈ colNames cols then some c
            else (if "task_submit_id" ∈ colNames cols then some "task_submit_id"
              else cols.head?.map (·.name))) from rfl] at h
    split at h
    · cases h
      next hcond => exact hcond.2
    · exact hfb h

theorem find?_of_mem_colNames {cols : List PdCol} {idName : String}
    (h : idName ∈ colNames cols) :
    ∃ col, cols.find? (fun c => c.name = idName) = some col ∧ col ∈ cols ∧
      col.name = idName := by
  obtain ⟨col0, hmem, hname⟩ := List.mem_map.mp h
  have hsome : (cols.find? (fun c => c.name = idName)).isSome := by
    rw [List.find?_isSome]
    exact ⟨col0, hmem, by simp [hname]⟩
  obtain ⟨col, hcol⟩ := Option.isSome_iff_exists.mp hsome
  refine ⟨col, hcol, List.mem_of_find?_eq_some hcol, ?_⟩
  have := List.find?_some hcol
  simpa using this

/-! ### Support lemmas: the column coercer -/

theorem foldl_choice_mem {α : Type} (step : α → α → α)
    (hstep : ∀ b c, step b c = b ∨ step b c = c) :
    ∀ (l : List α) (b : α), l.foldl step b ∈ b :: l := by
  intro l
  induction l with
  | nil => intro b; simp
  | cons c r ih =>
    intro b
    simp only [List.foldl_cons]
    rcases hstep b c with h | h <;> rw [h]
    · rcases List.mem_cons.mp (ih b) with h2 | h2
      · rw [h2]; simp
      · simp [List.mem_cons_of_mem, h2]
    · rcases List.mem_cons.mp (ih c) with h2 | h2
      · rw [h2]; simp
      · simp [List.mem_cons_of_mem, h2]

theorem pyMaxBy_mem (f : PdCol → Option Rat) (rest : List PdCol) (first : PdCol) :
    pyMaxBy f first rest ∈ first :: rest := by
  unfold pyMaxBy
  exact foldl_choice_mem _
    (fun b c => by by_cases hg : optRatGt (f c) (f b) <;> simp [hg]) rest first

theorem renameCol_mem_new {df : List PdCol} {old : String} (more : String)
    (h : ∃ x ∈ df, x.name = old) : more ∈ colNames (renameCol df old more) := by
  obtain ⟨x, hx, hname⟩ := h
  unfold renameCol colNames
  rw [List.map_map]
  refine List.mem_map.mpr ⟨x, hx, ?_⟩
  simp [Function.comp, hname]

theorem renameCol_mem_other {df : List PdCol} {old c : String} (more : String)
    (h : c ∈ colNames df) (hne : c ≠ old) : c ∈ colNames (renameCol df old more) := by
  obtain ⟨x, hx, hname⟩ := List.mem_map.mp h
  unfold renameCol colNames
  rw [List.map_map]
  refine List.mem_map.mpr ⟨x, hx, ?_⟩
  simp [Function.comp, hname, hne]

theorem closeMatchStep_mem {word : String} {cutoff : Rat}
    {best : Option (Rat × String)} {x : String} {p : Rat × String}
    (h : closeMatchStep word cutoff best x = some p) :
    p.2 = x ∨ best = some p := by
  unfold closeMatchStep at h
  by_cases hc : cutoff ≤ similarityScore x.data word.data
  · rw [if_pos hc] at h
    cases best with
    | none => cases h; left; rfl
    | some q =>
      simp only at h
      split at h
      · cases h; left; rfl
      · cases h; right; rfl
  · rw [if_neg hc] at h
    right; exact h

theorem foldl_closeMatchStep_mem (word : String) (cutoff : Rat) :
    ∀ (l : List String) (acc : Option (Rat × String)) (S : List String),
      (∀ x ∈ l, x ∈ S) → (∀ p, acc = some p → p.2 ∈ S) →
      ∀ p, l.foldl (closeMatchStep word cutoff) acc = some p → p.2 ∈ S := by
  intro l
  induction l with
  | nil => intro acc S _ hacc p hp; exact hacc p hp
  | cons a t ih =>
    intro acc S hsub hacc p hp
    simp only [List.foldl_cons] at hp
    refine ih _ S (fun x hx => hsub x (by simp [hx])) ?_ p hp
    intro q hq
    rcases closeMatchStep_mem hq with h | h
    · rw [h]; exact hsub a (by simp)
    · exact hacc q h

theorem getCloseMatch1_mem {word : String} {cands : List String} {cutoff : Rat}
    {m : String} (h : getCloseMatch1 word cands cutoff = some m) : m ∈ cands := by
  unfold getCloseMatch1 at h
  cases hf : cands.foldl (closeMatchStep word cutoff) none with
  | none => rw [hf] at h; simp at h
  | some p =>
    rw [hf] at h
    simp only [Option.map_some'] at h
    cases h
    exact foldl_closeMatchStep_mem word cutoff cands none cands (fun x hx => hx)
      (by intro q hq; simp at hq) p hf

theorem coerceTextStep_spec {df : List PdCol} (textCol : String) (hne : df ≠ []) :
    ∃ df1, coerceTextStep df textCol = .ok df1 ∧ textCol ∈ colNames df1 := by
  unfold coerceTextStep
  by_cases hin : textCol ∈ colNames df
  · exact ⟨df, by rw [if_pos hin], hin⟩
  · rw [if_neg hin]
    cases hobj : df.filter (fun c => c.dtype = Dtype.objectD) with
    | cons b bs =>
      refine ⟨_, rfl, ?_⟩
      apply renameCol_mem_new
      have hb : pyMaxBy (fun c => avgLen c.values) b bs ∈ b :: bs := pyMaxBy_mem _ bs b
      rw [← hobj] at hb
      exact ⟨_, List.mem_of_mem_filter hb, rfl⟩
    | nil =>
      cases hlast : df.getLast? with
      | none =>
        exact absurd (List.getLast?_eq_none_iff.mp hlast) hne
      | some lastC =>
        refine ⟨_, rfl, ?_⟩
        apply renameCol_mem_new
        exact ⟨lastC, List.mem_of_mem_getLast? hlast, rfl⟩

/-! ## Claim theorems -/

/-- C2, counterexample: `canonical` is not idempotent.  On `"a . b"` the
whitespace collapse runs before punctuation removal, so deleting the dot
leaves the double space `"a  b"`; a second pass collapses it to `"a b"`. -/
theorem C2_canonical_idempotent_counterexample :
    ¬ (canonical (canonical "a . b") = canonical "a . b") := by decide

/-- C2 (amended): `canonical` is deterministic (a pure function of its
input), maps null input to the empty string, identifies
"Variable-type Change" with "variable type change", and is idempotent on
every input whose canonical form carries no two adjacent spaces — the
only way a first pass can fail to be a fixed point is the double space
left when a removed punctuation character sat between two spaces
(e.g. `"a . b"`). -/
theorem C2_canonical_idempotent_amended (x : String)
    (h : noDoubleWS (canonical x).data = true) :
    canonical (canonical x) = canonical x ∧
    canonical "Variable-type Change" = canonical "variable type change" ∧
    canonicalOpt none = "" := by
  refine ⟨?_, by decide, rfl⟩
  have h2 : noDoubleWS (canonicalL x.data) = true := h
  have h3 : canonicalL (canonicalL x.data) = canonicalL x.data :=
    canonicalL_idem_of_noDoubleWS h2
  show (⟨canonicalL (canonicalL x.data)⟩ : String) = ⟨canonicalL x.data⟩
  rw [h3]

/-- Witness for the amended C2 theorem at a concrete construct name. -/
theorem C2_canonical_idempotent_witness :
    noDoubleWS (canonical "If Header").data = true ∧
    canonical (canonical "If Header") = canonical "If Header" :=
  ⟨by decide, (C2_canonical_idempotent_amended "If Header" (by decide)).1⟩

/-- C3, confirmed: `_normalize_id_value` maps the int `12345` and the
strings `"12345.0"`, `"12345.00"` to the same canonical string `"12345"`,
keeps the non-numeric `"abc-1"` as its stripped string form, and keeps a
missing value missing. -/
theorem C3_normalize_id_merge_invariant :
    normalizeIdValue (PyVal.intV 12345) = some "12345" ∧
    normalizeIdValue (PyVal.strV "12345.0") = some "12345" ∧
    normalizeIdValue (PyVal.strV "12345.00") = some "12345" ∧
    normalizeIdValue (PyVal.strV "abc-1") = some "abc-1" ∧
    normalizeIdValue PyVal.na = none := by
  refine ⟨?_, ?_, ?_, ?_, rfl⟩ <;> with_unfolding_all decide

/-- C1, counterexample: one raw row whose merge key is shared by two coded
rows comes out of `pd.merge(..., how="left")` twice, not once — the merged
length is 2, refuting "each raw row appears exactly once ... regardless of
how many coded rows share the same merge key". -/
theorem C1_left_merge_counterexample :
    ¬ ((pdLeftMerge (fun r : String × String => r.2) (fun c : String × Int => c.1)
        [("snippet text", "comment")] [("comment", 1), ("comment", 0)]).length = 1) := by
  decide

/-- C1 (amended): the left merge never drops a raw row (an unmatched row is
retained once with a missing label) and never invents rows, but a raw row
is emitted once per matching coded row, so the output length is the sum of
`max 1 (matches)` over raw rows; it equals the raw length exactly when no
merge key matches more than one coded row. -/
theorem C1_left_merge_amended {α β κ : Type} [DecidableEq κ]
    (keyL : α → κ) (keyR : β → κ) (ls : List α) (rs : List β) :
    (pdLeftMerge keyL keyR ls rs).length
        = (ls.map (fun l => max 1 (numMatches keyL keyR rs l))).sum ∧
    (∀ l ∈ ls, numMatches keyL keyR rs l = 0 →
      (l, (none : Option β)) ∈ pdLeftMerge keyL keyR ls rs) ∧
    (∀ p ∈ pdLeftMerge keyL keyR ls rs, p.1 ∈ ls) ∧
    ((∀ l ∈ ls, numMatches keyL keyR rs l ≤ 1) →
      (pdLeftMerge keyL keyR ls rs).length = ls.length) := by
  have hlen : (pdLeftMerge keyL keyR ls rs).length
      = (ls.map (fun l => max 1 (numMatches keyL keyR rs l))).sum := by
    unfold pdLeftMerge
    rw [List.length_flatMap]
    congr 1
    exact List.map_congr_left (fun l _ => pdLeftMerge_row_length keyL keyR rs l)
  refine ⟨hlen, ?_, ?_, ?_⟩
  · intro l hl hzero
    unfold pdLeftMerge
    apply List.mem_flatMap.mpr
    refine ⟨l, hl, ?_⟩
    have : rs.filter (fun r => keyR r = keyL l) = [] :=
      List.length_eq_zero.mp hzero
    rw [this]
    simp
  · intro p hp
    unfold pdLeftMerge at hp
    obtain ⟨l, hl, hpl⟩ := List.mem_flatMap.mp hp
    cases hfil : rs.filter (fun r => keyR r = keyL l) with
    | nil =>
      rw [hfil] at hpl
      simp only [List.mem_singleton] at hpl
      rw [hpl]; exact hl
    | cons m ms =>
      rw [hfil] at hpl
      obtain ⟨r, _, hr⟩ := List.mem_map.mp hpl
      rw [← hr]; exact hl
  · intro hone
    rw [hlen]
    have : ls.map (fun l => max 1 (numMatches keyL keyR rs l))
        = ls.map (fun _ => (1 : Nat)) := by
      apply List.map_congr_left
      intro l hl
      have := hone l hl
      omega
    rw [this, sum_map_one]

/-- Witness for the amended C1 theorem: two raw rows, unique coded keys —
the merged table has exactly the raw length. -/
theorem C1_left_merge_witness :
    (pdLeftMerge (fun r : String × String => r.2) (fun c : String × Int => c.1)
        [("s1", "comment"), ("s2", "operator")] [("comment", 1)]).length
      = (["s1", "s2"] : List String).length :=
  (C1_left_merge_amended (fun r : String × String => r.2) (fun c : String × Int => c.1)
    [("s1", "comment"), ("s2", "operator")] [("comment", 1)]).2.2.2 (by decide)

/-- C4, confirmed (for a non-empty supplied identifier name; the code tests
Python truthiness — `id_col and (id_col in columns)` — so an empty name
behaves like `None`): the (canonical id, canonical construct) key pair is
selected iff both the raw and the long coded table contain the column;
otherwise the construct-only fallback is selected, the warning flag is
raised, and the selection still returns (the run continues). -/
theorem C4_merge_key_selection (c : String) (rawCols codedCols : List String)
    (h : c ≠ "") :
    ((selectMergeKeys (some c) rawCols codedCols).1 = ["_id_key", "_construct_canon"]
        ↔ (c ∈ rawCols ∧ c ∈ codedCols)) ∧
    ((selectMergeKeys (some c) rawCols codedCols).2 = true
        ↔ ¬ (c ∈ rawCols ∧ c ∈ codedCols)) ∧
    (∀ rc cc : List String, selectMergeKeys none rc cc = (["_construct_canon"], true)) := by
  refine ⟨?_, ?_, fun rc cc => rfl⟩ <;>
  · unfold selectMergeKeys
    by_cases h1 : c ∈ rawCols <;> by_cases h2 : c ∈ codedCols <;> simp [h, h1, h2]

/-- Witness for C4 at concrete tables: both sides hold `task_submit_id`,
so the preferred key pair is selected. -/
theorem C4_merge_key_selection_witness :
    (selectMergeKeys (some "task_submit_id") ["task_submit_id", "code_change_text"]
        ["task_submit_id", "If Header"]).1 = ["_id_key", "_construct_canon"] :=
  (C4_merge_key_selection "task_submit_id" ["task_submit_id", "code_change_text"]
    ["task_submit_id", "If Header"] (by decide)).1.mpr (by decide)

/-- C5, code bug: on the degenerate single-class input
`true = pred = [1,1,1,1]`, `cohen_kappa_score` evaluates `0/0` and
returns NaN without raising, so the `try/except` guard of the
per-construct loop never fires and the reported coefficient is a
propagated NaN — not the absent value the code's own guard comment and
the spec intend.  The second half of the claim is honoured by the code:
with zero labelled merged rows the overall coefficient is absent. -/
theorem C5_degenerate_kappa_is_nan :
    cohenKappa [1, 1, 1, 1] [1, 1, 1, 1] = PyFloat.nan ∧
    (buildConstructRecord "Comment"
        [(some 1, 1), (some 1, 1), (some 1, 1), (some 1, 1)]).humGptKappa
      = some PyFloat.nan ∧
    overallKappa [(none, 0), (none, 1)] = none := by
  refine ⟨?_, ?_, ?_⟩ <;> with_unfolding_all decide

/-- C6, confirmed: over the evaluable rows (present true label), the
reported frequency is the fraction of rows with true label 1; precision
and recall take label 1 as positive with zero-division giving 0; and the
fixed pair true = [1,1,0,0], pred = [1,0,0,0] scores precision 1,
recall 1/2, frequency 1/2. -/
theorem C6_scoring_engine :
    (∀ (name : String) (g : List (Option Int × Int)),
      (g.filter (fun r => r.1.isSome)).length ≠ 0 →
      (buildConstructRecord name g).freqInData
        = some (PyFloat.val
            ((((g.filter (fun r => r.1.isSome)).filterMap (·.1)).countP
                (fun t => decide (t = 1)) : Nat)
              / ((g.filter (fun r => r.1.isSome)).length : Nat) : Rat))) ∧
    precisionScore [1, 1, 0, 0] [1, 0, 0, 0] = 1 ∧
    recallScore [1, 1, 0, 0] [1, 0, 0, 0] = 1 / 2 ∧
    meanRat (([1, 1, 0, 0] : List Int).map (fun t => if t = 1 then 1 else 0)) = 1 / 2 ∧
    (∀ yt yp : List Int, ((yt.zip yp).filter (fun p => p.2 = 1)).length = 0 →
      precisionScore yt yp = 0) ∧
    (∀ yt yp : List Int, ((yt.zip yp).filter (fun p => p.1 = 1)).length = 0 →
      recallScore yt yp = 0) := by
  refine ⟨?_, by with_unfolding_all decide, by with_unfolding_all decide,
      by with_unfolding_all decide, ?_, ?_⟩
  · intro name g hne
    unfold buildConstructRecord
    rw [if_neg hne]
    show some (PyFloat.val (meanRat _)) = _
    unfold meanRat
    rw [sum_indicator_eq_countP, List.length_map, length_filterMap_fst]
  · intro yt yp h
    simp [precisionScore, h]
  · intro yt yp h
    simp [recallScore, h]

/-- Witness for C6: a group with one unlabeled row; the frequency is the
fraction of positives among the three evaluable rows. -/
theorem C6_scoring_engine_witness :
    (buildConstructRecord "If Header"
        [(some 1, 1), (some 1, 0), (some 0, 0), (none, 1)]).freqInData
      = some (PyFloat.val ((2 : Nat) / (3 : Nat) : Rat)) := by
  have h := C6_scoring_engine.1 "If Header"
    [(some 1, 1), (some 1, 0), (some 0, 0), (none, 1)] (by decide)
  rw [h]
  with_unfolding_all decide

/-- C8, confirmed: oracle-response parsing is total and always lands in
{0, 1}; whenever the parse fails (warning emitted) the returned label is
the default 0; and concrete responses exercise the standalone-digit rule,
the leading-digit rule, and the fallback (also for a `None` content). -/
theorem C8_llm_parse_total (content : Option String) :
    ((llmParseBinary content).1 = 0 ∨ (llmParseBinary content).1 = 1) ∧
    ((llmParseBinary content).2 = true → (llmParseBinary content).1 = 0) ∧
    llmParseBinary (some "I would code this as 1") = (1, false) ∧
    llmParseBinary (some "0, because the text is unrelated") = (0, false) ∧
    llmParseBinary (some "It depends.") = (0, true) ∧
    llmParseBinary none = (0, true) := by
  refine ⟨?_, ?_, by decide, by decide, by decide, by decide⟩ <;>
  · unfold llmParseBinary
    cases hf : findStandalone01 none (content.getD "").data with
    | some c =>
      simp only [hf]
      by_cases hc : c = '1' <;> simp [hc]
    | none =>
      simp only [hf]
      cases hh : ((content.getD "").data.dropWhile isPyWS).head? with
      | some c =>
        simp only [hh]
        by_cases h0 : (c = '0' || c = '1') = true
        · by_cases hc : c = '1' <;> by_cases hz : c = '0' <;> simp [h0, hc, hz]
        · simp [h0]
      | none => simp [hh]

/-- Witness for C8 at a concrete unparseable response. -/
theorem C8_llm_parse_total_witness :
    (llmParseBinary (some "The construct is exemplified.")).1 = 0 ∨
    (llmParseBinary (some "The construct is exemplified.")).1 = 1 :=
  (C8_llm_parse_total (some "The construct is exemplified.")).1

/-- C9, code bug: the core's zero-evaluable-rows record carries an absent
`freq_in_data`, and `pretty_format`'s `astype(int)` raises on exactly that
document (IntCastingNaNError) instead of accepting it; records with all
frequencies present are formatted fine — absent kappa/precision/recall
alone do not raise. -/
theorem C9_pretty_format_rejects_absent_freq :
    buildConstructRecord "Testing" [(none, 0), (none, 1)]
      = { construct := "Testing", freqInData := none, humGptKappa := none,
          humGptPrecision := none, humGptRecall := none, nEval := 0 } ∧
    prettyFormat [{ construct := "Testing", freqInData := none, humGptKappa := none,
                    humGptPrecision := none, humGptRecall := none, nEval := 0 }]
      = .error "IntCastingNaNError" ∧
    prettyFormat [{ construct := "Comment", freqInData := some (PyFloat.val (1 / 2)),
                    humGptKappa := some PyFloat.nan,
                    humGptPrecision := some (PyFloat.val 1),
                    humGptRecall := none, nEval := 4 }]
      = .ok [{ construct := "Comment", freqPct := "50%",
               humGptKappa := some PyFloat.nan,
               humGptPrecision := some (PyFloat.val 1),
               humGptRecall := some PyFloat.nan }] := by
  refine ⟨by decide, by rfl, by with_unfolding_all rfl⟩

theorem sum_map_const {α : Type} (l : List α) (k : Nat) :
    (l.map (fun _ => k)).sum = l.length * k := by
  induction l with
  | nil => simp
  | cons a t ih => simp [ih]; ring

/-- C7, counterexample: a construct column whose name holds no
alphanumeric character (here `"!!!"`) melts into a row whose canonical
construct key is empty, refuting "each [row carries] a non-empty
canonical construct key". -/
theorem C7_melt_reshaping_counterexample :
    ¬ (∀ e ∈ (meltCodedWideToLong
          [⟨"task_submit_id", Dtype.numericD, [Cell.num 7]⟩,
           ⟨"!!!", Dtype.numericD, [Cell.num 1]⟩] none "construct_name").getD [],
        e.constructCanon ≠ "") := by decide

/-- C7 (amended): melting a wide table with N uniform-length rows and M
construct columns (columns other than the chosen identifier column)
yields exactly N×M long rows; each row carries the canonical key of its
column name — non-empty whenever the name holds an ASCII letter, digit,
or ampersand (a name of pure punctuation like `"!!!"` gives the empty
key); cell values are numerically coerced, non-numeric values becoming
missing. -/
theorem C7_melt_reshaping_amended (cols : List PdCol) (idCol : Option String)
    (ccn : String) (N : Nat) (hne : cols ≠ [])
    (hlen : ∀ c ∈ cols, c.values.length = N) :
    ∃ idName out, chooseIdName cols idCol = some idName ∧
      meltCodedWideToLong cols idCol ccn = some out ∧
      out.length = (cols.filter (fun c => c.name ≠ idName)).length * N ∧
      (∀ e ∈ out, e.constructCanon = canonical e.constructName) ∧
      (∀ e ∈ out, e.constructName.data.any keepsCanonNonempty = true →
        e.constructCanon ≠ "") ∧
      toNumericCell (Cell.str "not numeric") = none ∧
      toNumericCell (Cell.str "1") = some 1 := by
  obtain ⟨idName, hid⟩ := chooseIdName_isSome idCol hne
  obtain ⟨col, hfind, hmem, _⟩ := find?_of_mem_colNames (chooseIdName_mem hid)
  refine ⟨idName, (cols.filter (fun c => c.name ≠ idName)).flatMap (fun c =>
      (col.values.zip c.values).map fun p =>
        { idVal := p.1, constructName := c.name, humanLabel := toNumericCell p.2,
          constructCanon := canonical c.name }), hid, ?_, ?_, ?_, ?_,
      by decide, by with_unfolding_all decide⟩
  · have hred : meltCodedWideToLong cols idCol ccn
        = some ((cols.filter (fun c => c.name ≠ idName)).flatMap fun c =>
            (((((cols.find? (fun c => c.name = idName)).map (·.values)).getD []).zip
                c.values).map fun p =>
              { idVal := p.1, constructName := c.name, humanLabel := toNumericCell p.2,
                constructCanon := canonical c.name })) := by
      unfold meltCodedWideToLong
      rw [hid]
    rw [hred, hfind]
    rfl
  · rw [List.length_flatMap]
    have hcong : ∀ c ∈ cols.filter (fun c => c.name ≠ idName),
        (List.length ∘ fun c =>
          ((col.values.zip c.values).map fun p =>
            ({ idVal := p.1, constructName := c.name, humanLabel := toNumericCell p.2,
               constructCanon := canonical c.name } : MeltRow))) c = N := by
      intro c hc
      show ((col.values.zip c.values).map _).length = N
      rw [List.length_map, List.length_zip, hlen col hmem,
        hlen c (List.mem_of_mem_filter hc)]
      exact Nat.min_self N
    rw [List.map_congr_left hcong, sum_map_const]
  · intro e he
    obtain ⟨c, _, he2⟩ := List.mem_flatMap.mp he
    obtain ⟨p, _, hp⟩ := List.mem_map.mp he2
    rw [← hp]
  · intro e he hk
    obtain ⟨c, _, he2⟩ := List.mem_flatMap.mp he
    obtain ⟨p, _, hp⟩ := List.mem_map.mp he2
    rw [← hp] at hk ⊢
    intro hempty
    apply canonicalL_ne_nil_of_keeps hk
    exact congrArg String.data hempty

/-- Witness for the amended C7 theorem on the spec's scenario: two entity
rows × two construct columns melt into exactly four long rows. -/
theorem C7_melt_reshaping_witness :
    ∃ out, meltCodedWideToLong sampleWide (some "sid") "construct_name" = some out ∧
      out.length = 4 := by
  obtain ⟨idName, out, h1, h2, h3, -, -, -, -⟩ :=
    C7_melt_reshaping_amended sampleWide (some "sid") "construct_name" 2
      (by decide) (by decide)
  have hname : idName = "sid" := by
    have hc : chooseIdName sampleWide (some "sid") = some "sid" := by decide
    rw [hc] at h1
    exact (Option.some.inj h1).symm
  subst hname
  refine ⟨out, h2, ?_⟩
  rw [h3]
  decide

/-- C10, counterexample: a two-column raw table that already holds the
text column, with an identifier requested but absent and no numeric
columns — the id fallback renames the FIRST column, which is the text
column, so the coerced result lacks the text column and the driver's
fatal check fires on a table with two columns (not zero). -/
theorem C10_coerce_counterexample :
    coerceRawColumns
        [⟨"code_change_text", Dtype.objectD, [Cell.str "diff text"]⟩,
         ⟨"construct_name", Dtype.objectD, [Cell.str "Comment"]⟩]
        (some "sid") "code_change_text" "construct_name"
      = .ok [⟨"sid", Dtype.objectD, [Cell.str "diff text"]⟩,
             ⟨"construct_name", Dtype.objectD, [Cell.str "Comment"]⟩] ∧
    "code_change_text" ∉ colNames
        [⟨"sid", Dtype.objectD, [Cell.str "diff text"]⟩,
         ⟨"construct_name", Dtype.objectD, [Cell.str "Comment"]⟩] :=
  ⟨by rfl, by decide⟩

/-- C10 (amended): `coerce_raw_columns` is not total and does not always
preserve the text column.  When no identifier is requested AND the
construct column is already present (so the fuzzy construct-rename step
cannot fire), it never raises on a non-empty frame and its result
contains the text column (renaming an original column into it if
needed).  Each restriction is necessary: with the construct column
absent, the fuzzy step can rename a closely-named text column into the
construct column even with no identifier requested — a text column
`construct_nam` against construct column `construct_name` matches at
ratio 26/27 ≥ 0.8 and the text column is lost; with an identifier
requested and absent the run can raise KeyError (the numeric scan looks
the ORIGINAL names up in the renamed frame) or rename the text column
into the identifier (see the counterexample).  So the driver's fatal
check can fire for non-empty tables; on a zero-column frame the text
fallback `cols[-1]` raises IndexError. -/
theorem C10_coerce_amended :
    (∀ (df : List PdCol) (textCol constructCol : String), df ≠ [] →
      constructCol ∈ colNames df →
      ∃ out, coerceRawColumns df none textCol constructCol = .ok out ∧
        textCol ∈ colNames out) ∧
    (coerceRawColumns [⟨"construct_nam", Dtype.objectD, [Cell.str "diff text"]⟩]
        none "construct_nam" "construct_name"
      = .ok [⟨"construct_name", Dtype.objectD, [Cell.str "diff text"]⟩] ∧
     "construct_nam" ∉ colNames
        [⟨"construct_name", Dtype.objectD, [Cell.str "diff text"]⟩]) ∧
    coerceRawColumns [⟨"a", Dtype.objectD, [Cell.str "x"]⟩] (some "sid")
        "code_change_text" "construct_name" = .error "KeyError" ∧
    coerceRawColumns [] none "code_change_text" "construct_name"
      = .error "IndexError" := by
  refine ⟨?_, ⟨by with_unfolding_all rfl, by decide⟩, by with_unfolding_all rfl, by rfl⟩
  intro df textCol constructCol hne hcc
  have hun : coerceRawColumns df none textCol constructCol
      = match coerceTextStep df textCol with
        | .error e => .error e
        | .ok df1 =>
          coerceIdStep (coerceConstructStep df1 (colNames df) constructCol)
            (colNames df) none := rfl
  rw [hun]
  by_cases hin : textCol ∈ colNames df
  · have hstep : coerceTextStep df textCol = .ok df := by
      unfold coerceTextStep
      rw [if_pos hin]
    rw [hstep]
    refine ⟨coerceConstructStep df (colNames df) constructCol, by rfl, ?_⟩
    unfold coerceConstructStep
    rw [if_pos hcc]
    exact hin
  · obtain ⟨df1, hstep, htext⟩ := coerceTextStep_spec textCol hne
    rw [hstep]
    refine ⟨coerceConstructStep df1 (colNames df) constructCol, by rfl, ?_⟩
    unfold coerceConstructStep
    by_cases hc1 : constructCol ∈ colNames df1
    · rw [if_pos hc1]
      exact htext
    · rw [if_neg hc1]
      cases hm : getCloseMatch1 constructCol (colNames df) (4 / 5) with
      | none => exact htext
      | some m =>
        have hmem : m ∈ colNames df := getCloseMatch1_mem hm
        have hmne : textCol ≠ m := fun he => hin (he ▸ hmem)
        exact renameCol_mem_other constructCol htext hmne

/-- Witness for the amended C10 theorem: no identifier requested, the
construct column present, the text column inferred by renaming — the
coercion returns and the text column is present. -/
theorem C10_coerce_amended_witness :
    ∃ out, coerceRawColumns
        [⟨"construct_name", Dtype.objectD, [Cell.str "If Header"]⟩,
         ⟨"snippet", Dtype.objectD, [Cell.str "some longer code text"]⟩]
        none "code_change_text" "construct_name" = .ok out ∧
      "code_change_text" ∈ colNames out :=
  C10_coerce_amended.1
    [⟨"construct_name", Dtype.objectD, [Cell.str "If Header"]⟩,
     ⟨"snippet", Dtype.objectD, [Cell.str "some longer code text"]⟩]
    "code_change_text" "construct_name" (by decide) (by decide)

end QC
